import Mathlib

/-!
Verification of the OrcaSlicer tool-shutdown post-processor
(`orcaslicer_tool_shutdown.py`).

The script is embedded shallowly: every regular expression and every
branch of the analysis / planning / mutation pipeline is transliterated
into an executable Lean function over `List Char` / `List String`,
with floating-point extrusion values modelled as exact rationals `Rat`.
-/

namespace OrcaToolShutdown

/-! ## Character-level helpers (Python `str.strip`, `str.lower`, `in`, regexes) -/

/-- Whitespace as recognized by Python `str.strip` (ASCII fragment). -/
def isSpaceChar (c : Char) : Bool := c.isWhitespace

/-- Word characters of the regex class `\w` (ASCII fragment): used by the
word-boundary `\b` in the extrusion regex `(?<!;)\bE(...)`. -/
def isWordChar (c : Char) : Bool := c.isAlphanum || c = '_'

/-- Python `str.strip`: drop whitespace from both ends. -/
def stripChars (l : List Char) : List Char :=
  ((l.dropWhile isSpaceChar).reverse.dropWhile isSpaceChar).reverse

/-- Python `str.lower` (ASCII fragment). -/
def lowerChars (l : List Char) : List Char := l.map Char.toLower

/-- Does `hay` start with `needle`? (Python `str.startswith`.) -/
def hasPrefixList : List Char → List Char → Bool
  | _, [] => true
  | [], _ :: _ => false
  | c :: cs, d :: ds => c == d && hasPrefixList cs ds

/-- Does `needle` occur as a contiguous substring of `hay`?
(Python `needle in hay`.) -/
def containsSub (hay needle : List Char) : Bool :=
  match hay with
  | [] => hasPrefixList [] needle
  | _ :: rest => hasPrefixList hay needle || containsSub rest needle

/-- Numeric value of a list of decimal digit characters. -/
def digitsToNat (ds : List Char) : Nat :=
  ds.foldl (fun a c => 10 * a + (c.toNat - '0'.toNat)) 0

/-- Value of the regex number `[-+]?\d*\.?\d+` starting at the head of the
input, with greedy-match semantics, as an exact rational.  `none` when the
head of the input does not match the number pattern. -/
def parseNum (cs : List Char) : Option Rat :=
  let signed : Rat → Rat :=
    match cs with
    | '-' :: _ => fun v => -v
    | _ => fun v => v
  let cs1 : List Char :=
    match cs with
    | '-' :: r => r
    | '+' :: r => r
    | _ => cs
  let d1 := cs1.takeWhile Char.isDigit
  let r1 := cs1.dropWhile Char.isDigit
  match r1 with
  | '.' :: r2 =>
    let d2 := r2.takeWhile Char.isDigit
    if d2.isEmpty then
      if d1.isEmpty then none
      else some (signed (digitsToNat d1))
    else
      some (signed ((digitsToNat d1 : Rat) +
        (digitsToNat d2 : Rat) / ((10 : Rat) ^ d2.length)))
  | _ =>
    if d1.isEmpty then none else some (signed (digitsToNat d1))

/-- Is the `\b`-boundary-and-`(?<!;)`-lookbehind condition of the
extrusion regex satisfied, given the character preceding the `E`
(`none` at the start of the line)? -/
def eBoundaryOk : Option Char → Bool
  | none => true
  | some p => !isWordChar p && p != ';'

/-- Worker for `findE`: scan left to right carrying the previous character. -/
def findEAux : Option Char → List Char → Option Rat
  | _, [] => none
  | prev, c :: cs =>
    if c == 'E' && eBoundaryOk prev then
      match parseNum cs with
      | some v => some v
      | none => findEAux (some c) cs
    else
      findEAux (some c) cs

/-- `re_e.search`: the regex `(?<!;)\bE([-+]?\d*\.?\d+)`, leftmost match,
returning the captured numeric value. -/
def findE (l : List Char) : Option Rat := findEAux none l

/-- `re_t.match`: the anchored regex `^\s*T(\d+)\s*(?:;.*)?$` recognizing a
standalone tool-select line, returning the tool id. -/
def parseT (l : List Char) : Option Nat :=
  match l.dropWhile isSpaceChar with
  | 'T' :: rest =>
    let ds := rest.takeWhile Char.isDigit
    if ds.isEmpty then none
    else
      match (rest.dropWhile Char.isDigit).dropWhile isSpaceChar with
      | [] => some (digitsToNat ds)
      | ';' :: _ => some (digitsToNat ds)
      | _ => none
  | _ => none

/-- Worker for `parseG92`: the greedy `.*E(num)` tail of the G92 regex picks
the rightmost `E`/`e` that is followed by a number. -/
def lastENum : List Char → Option Rat
  | [] => none
  | c :: cs =>
    match lastENum cs with
    | some v => some v
    | none =>
      if c == 'E' || c == 'e' then parseNum cs else none

/-- `re_g92_e.match`: the regex `^\s*G92\s+.*E(num)` with `re.IGNORECASE`,
returning the captured extrusion-axis reset value (the greedy `.*` selects
the rightmost matching `E`-number occurrence). -/
def parseG92 (l : List Char) : Option Rat :=
  match l.dropWhile isSpaceChar with
  | g :: n1 :: n2 :: c :: cs =>
    if g.toLower == 'g' && n1 == '9' && n2 == '2' && isSpaceChar c then
      lastENum cs
    else none
  | _ => none

/-! ## Instruction Classifier

`analyze_tool_usage` examines each stripped line through a fixed cascade of
pattern tests (`startswith('M82')`, `startswith('M83')`, `re_g92_e.match`,
`re_t.match`, then the `G0`/`G1`-with-`E` test), first match winning.
`classify` reproduces that cascade. -/

/-- Extrusion mode: `'ABS'` (M82) or `'REL'` (M83). -/
inductive EMode where
  | ABS
  | REL
deriving DecidableEq, Repr

/-- The mutually exclusive classification of one stripped line. -/
inductive LineClass where
  | modeSet (m : EMode)
  | originReset (v : Rat)
  | toolSelect (n : Nat)
  | moveExtrude (v : Rat)
  | other
deriving DecidableEq

/-- `line[:2] in ('G0', 'G1')` together with `line and line[0] == 'G'`:
the move-branch guard of `analyze_tool_usage`. -/
def moveHead (l : List Char) : Bool :=
  match l with
  | 'G' :: '0' :: _ => true
  | 'G' :: '1' :: _ => true
  | _ => false

/-- Classify one already-stripped line, in the source's branch order. -/
def classify (line : List Char) : LineClass :=
  if hasPrefixList line ("M82".data) then .modeSet .ABS
  else if hasPrefixList line ("M83".data) then .modeSet .REL
  else
    match parseG92 line with
    | some v => .originReset v
    | none =>
      match parseT line with
      | some n => .toolSelect n
      | none =>
        if moveHead line then
          match findE line with
          | some v => .moveExtrude v
          | none => .other
        else .other

/-- The layer-marker test `';LAYER:' in line or ';layer' in line.lower()`
that ends the start-of-file region. -/
def layerMarker (line : List Char) : Bool :=
  containsSub line (";LAYER:".data) || containsSub (lowerChars line) (";layer".data)

/-! ## Usage Analyzer state -/

/-- The running state of `analyze_tool_usage`: the processor's instance
fields (`tool_usage`, `tool_changes`, `current_tool`, `total_tools`,
`e_mode`, `e_pos`) together with the loop locals (`previous_tool`,
`in_start_gcode`, `first_tool_after_start`) and the `enumerate` counter.
`tool_usage` and `tool_changes` are insertion-ordered association lists
(Python `defaultdict`), `total_tools` an insertion-ordered duplicate-free
list (Python `set`). -/
structure AState where
  usage : List (Nat × List Nat)
  changes : List (Nat × Nat)
  currentTool : Nat
  totalTools : List Nat
  eMode : EMode
  ePos : Rat
  previousTool : Option Nat
  inStart : Bool
  firstToolAfterStart : Bool
  lineNum : Nat
deriving DecidableEq

/-- The state at the top of `analyze_tool_usage`. -/
def initState : AState :=
  { usage := [], changes := [], currentTool := 0, totalTools := [],
    eMode := .ABS, ePos := 0, previousTool := none,
    inStart := true, firstToolAfterStart := true, lineNum := 0 }

/-- Look a tool up in an association list, empty list when absent
(`defaultdict(list)` read). -/
def lookupList : List (Nat × List Nat) → Nat → List Nat
  | [], _ => []
  | (k, v) :: rest, t => if k = t then v else lookupList rest t

/-- Append one index to a tool's usage list
(`self.tool_usage[tool].append(line_num)`). -/
def usageAppend : List (Nat × List Nat) → Nat → Nat → List (Nat × List Nat)
  | [], t, i => [(t, [i])]
  | (k, v) :: rest, t, i =>
    if k = t then (k, v ++ [i]) :: rest else (k, v) :: usageAppend rest t i

/-- Look a tool's change count up, `0` when absent (`defaultdict(int)`). -/
def lookupCount : List (Nat × Nat) → Nat → Nat
  | [], _ => 0
  | (k, v) :: rest, t => if k = t then v else lookupCount rest t

/-- Increment a tool's change count (`self.tool_changes[new_tool] += 1`). -/
def countIncr : List (Nat × Nat) → Nat → List (Nat × Nat)
  | [], t => [(t, 1)]
  | (k, v) :: rest, t =>
    if k = t then (k, v + 1) :: rest else (k, v) :: countIncr rest t

/-- Add a tool to the known-tools set (`self.total_tools.add`). -/
def addTool (l : List Nat) (t : Nat) : List Nat :=
  if t ∈ l then l else l ++ [t]

/-- The tool usage list recorded for tool `t`. -/
def usageOf (s : AState) (t : Nat) : List Nat := lookupList s.usage t

/-- The tool change count recorded for tool `t`. -/
def changesOf (s : AState) (t : Nat) : Nat := lookupCount s.changes t

/-- The tool-select branch of `analyze_tool_usage`. -/
def toolSelectStep (s : AState) (n : Nat) : AState :=
  let s1 :=
    if !s.inStart then
      if s.firstToolAfterStart then { s with firstToolAfterStart := false }
      else
        match s.previousTool with
        | some p => if p ≠ n then { s with changes := countIncr s.changes n } else s
        | none => s
    else s
  { s1 with currentTool := n, previousTool := some n,
            totalTools := addTool s1.totalTools n }

/-- Record an actual extrusion event: append the line index to the current
tool's usage list and add the tool to the known-tools set. -/
def recordExtrusion (s : AState) : AState :=
  { s with usage := usageAppend s.usage s.currentTool s.lineNum,
           totalTools := addTool s.totalTools s.currentTool }

/-- The move-with-extrusion branch of `analyze_tool_usage`: in absolute
mode compare against the tracked position with tolerance `1e-6` and update
the position unconditionally; in relative mode compare the value itself. -/
def moveStep (s : AState) (v : Rat) : AState :=
  match s.eMode with
  | .ABS =>
    let s1 := { s with ePos := v }
    if s.ePos + 1 / 1000000 < v then recordExtrusion s1 else s1
  | .REL =>
    if 1 / 1000000 < v then recordExtrusion s else s

/-- The start-region check at the top of the loop body: a layer marker
clears `in_start_gcode`. -/
def layerStep (s : AState) (line : List Char) : AState :=
  if layerMarker line then { s with inStart := false } else s

/-- The branch cascade of the loop body, on the classified line. -/
def classStep (s : AState) (line : List Char) : AState :=
  match classify line with
  | .modeSet m => { s with eMode := m }
  | .originReset v => { s with ePos := v }
  | .toolSelect n => toolSelectStep s n
  | .moveExtrude v => moveStep s v
  | .other => s

/-- One iteration of the `analyze_tool_usage` loop body on a raw line
(the `enumerate` counter advances at the end). -/
def analyzeLine (s : AState) (raw : String) : AState :=
  let s1 := classStep (layerStep s (stripChars raw.data)) (stripChars raw.data)
  { s1 with lineNum := s1.lineNum + 1 }

/-- `analyze_tool_usage`: the single forward pass over all lines. -/
def analyze (lines : List String) : AState :=
  lines.foldl analyzeLine initState

/-! ## Insertion Planner and Sequence Mutator -/

/-- The standby marker text `f'M104 S100 T{tool_num}'` searched for by
`find_last_standby_command`. -/
def standbyMarker (n : Nat) : List Char := ("M104 S100 T" ++ Nat.repr n).data

/-- Index of the last line whose stripped text contains `marker` as a
substring, mirroring the backward `for idx in range(len(lines)-1, -1, -1)`
scan. -/
def lastMarkerIdx (marker : List Char) : List String → Option Nat
  | [] => none
  | l :: ls =>
    match lastMarkerIdx marker ls with
    | some k => some (k + 1)
    | none => if containsSub (stripChars l.data) marker then some 0 else none

/-- `find_last_standby_command`: index *after* the last standby command for
the tool, or `none`. -/
def findLastStandbyCommand (lines : List String) (n : Nat) : Option Nat :=
  (lastMarkerIdx (standbyMarker n) lines).map (· + 1)

/-- `find_safe_insertion_point`: pass the found index through the Python
truthiness test `if insert_after_standby:` (an index of `0` would be
falsy). -/
def findSafeInsertionPoint (lines : List String) (n : Nat) : Option Nat :=
  match findLastStandbyCommand lines n with
  | some k => if k = 0 then none else some k
  | none => none

/-- The heater-shutdown line of the generated block (`shutdown_heater`
enabled in the default configuration). -/
def shutdownHeaterLine (n : Nat) : String :=
  "M104 S0 T" ++ Nat.repr n ++ "          ; Hotend T" ++ Nat.repr n ++ " shutdown\n"

/-- `generate_shutdown_commands` under the default configuration
(`add_comments` and `shutdown_heater` on, `shutdown_fan` off). -/
def generateShutdownCommands (n : Nat) : List String :=
  [ "; ========================================\n",
    "; AUTO-SHUTDOWN: Tool T" ++ Nat.repr n ++ "\n",
    "; Overrides OrcaSlicer standby (100°C → 0°C)\n",
    "; ========================================\n",
    shutdownHeaterLine n,
    "; Energy savings: Tool T" ++ Nat.repr n ++ " fully deactivated\n",
    "\n" ]

/-- Splice a block into the working copy at index `k`
(`for cmd in reversed(cmds): output_lines.insert(insert_at, cmd)`). -/
def insertBlockAt (k : Nat) (block out : List String) : List String :=
  out.take k ++ block ++ out.drop k

/-- `last_usage`: for each known tool with a non-empty usage list, its
maximal usage index, in known-tools iteration order. -/
def maxList : List Nat → Nat
  | [] => 0
  | h :: t => t.foldl Nat.max h

/-- The `(tool, last-use)` pairs the planner sorts
(`last_usage.items()`). -/
def lastUsageList (s : AState) : List (Nat × Nat) :=
  s.totalTools.filterMap fun t =>
    match usageOf s t with
    | [] => none
    | us => some (t, maxList us)

/-- Python's stable `sorted(items, key=lambda x: x[1], reverse=True)`:
a stable insertion sort by last-use index descending (ties keep their
original relative order). -/
def plannerOrder (s : AState) : List (Nat × Nat) :=
  List.insertionSort (fun a b : Nat × Nat => b.2 ≤ a.2) (lastUsageList s)

/-- Result of `insert_shutdown_commands`: the mutated working copy, the
`shutdown_inserted` set (as an insertion-ordered list) and the list of
`(tool, index)` insertions actually applied. -/
structure InsertResult where
  output : List String
  inserted : List Nat
  actions : List (Nat × Nat)
deriving DecidableEq

/-- One iteration of the `for tool, last_line in tools_by_last_use` loop. -/
def insertStep (lines : List String) (r : InsertResult) (p : Nat × Nat) : InsertResult :=
  match findSafeInsertionPoint lines p.1 with
  | none => r
  | some k =>
    { output := insertBlockAt k (generateShutdownCommands p.1) r.output,
      inserted := r.inserted ++ [p.1],
      actions := r.actions ++ [(p.1, k)] }

/-- `insert_shutdown_commands`: plan per tool in descending last-use order
and splice each block into the working copy at the index computed against
the *original* line sequence. -/
def insertShutdownCommands (lines : List String) (s : AState) : InsertResult :=
  (plannerOrder s).foldl (insertStep lines) ⟨lines, [], []⟩

/-- The per-tool status text of `generate_report`. -/
def reportToolStatus (inserted : List Nat) (t : Nat) : String :=
  if t ∈ inserted then ("✓ Auto-Shutdown") else ("○ Active until end")

/-- One run of the analyze → plan → mutate pipeline of `process`
(the Report Builder only prepends comment lines and is not part of the
mutation of interest). -/
def processOnce (lines : List String) : List String :=
  (insertShutdownCommands lines (analyze lines)).output

/-! ## Basic lemmas about the association-list state -/

theorem lookupList_usageAppend_self (u : List (Nat × List Nat)) (t i : Nat) :
    lookupList (usageAppend u t i) t = lookupList u t ++ [i] := by
  induction u with
  | nil => simp [usageAppend, lookupList]
  | cons p rest ih =>
    obtain ⟨k, v⟩ := p
    by_cases hk : k = t
    · subst hk
      simp [usageAppend, lookupList]
    · simp [usageAppend, lookupList, hk, ih]

theorem lookupList_usageAppend_ne (u : List (Nat × List Nat)) (t t' i : Nat)
    (h : t' ≠ t) : lookupList (usageAppend u t i) t' = lookupList u t' := by
  induction u with
  | nil =>
    simp only [usageAppend, lookupList]
    rw [if_neg (fun hh => h hh.symm)]
  | cons p rest ih =>
    obtain ⟨k, v⟩ := p
    by_cases hk : k = t
    · have hk' : ¬ k = t' := fun hh => h (hh ▸ hk)
      simp only [usageAppend, if_pos hk, lookupList]
      rw [if_neg hk', if_neg hk']
    · simp only [usageAppend, if_neg hk, lookupList]
      by_cases hk' : k = t'
      · rw [if_pos hk', if_pos hk']
      · rw [if_neg hk', if_neg hk', ih]

theorem list_ne_append_singleton {α : Type} (l : List α) (i : α) :
    l ≠ l ++ [i] := by
  intro h
  have := congrArg List.length h
  simp at this

/-! ## C1: recording of extrusion events -/

theorem moveStep_usage_iff (s : AState) (v : Rat) :
    (usageOf (moveStep s v) s.currentTool = usageOf s s.currentTool ++ [s.lineNum]
      ↔ ((s.eMode = EMode.ABS ∧ s.ePos + 1 / 1000000 < v) ∨
         (s.eMode = EMode.REL ∧ 1 / 1000000 < v)))
    ∧ (s.eMode = EMode.ABS → (moveStep s v).ePos = v) := by
  obtain ⟨u, ch, ct, tt, em, ep, pt, sf, ft, ln⟩ := s
  cases em with
  | ABS =>
    by_cases hv : ep + 1 / 1000000 < v
    · refine ⟨?_, fun _ => ?_⟩
      · simp only [moveStep, if_pos hv, recordExtrusion, usageOf]
        rw [lookupList_usageAppend_self]
        exact iff_of_true rfl (Or.inl ⟨trivial, hv⟩)
      · simp only [moveStep]
        split <;> rfl
    · refine ⟨?_, fun _ => ?_⟩
      · simp only [moveStep, if_neg hv, usageOf]
        constructor
        · intro h
          exact absurd h (list_ne_append_singleton _ _)
        · rintro (⟨_, h⟩ | ⟨h, _⟩)
          · exact absurd h hv
          · exact absurd h (by simp)
      · simp only [moveStep]
        split <;> rfl
  | REL =>
    by_cases hv : (1 : Rat) / 1000000 < v
    · refine ⟨?_, fun h => ?_⟩
      · simp only [moveStep, if_pos hv, recordExtrusion, usageOf]
        rw [lookupList_usageAppend_self]
        exact iff_of_true rfl (Or.inr ⟨trivial, hv⟩)
      · exact absurd h (by simp)
    · refine ⟨?_, fun h => ?_⟩
      · simp only [moveStep, if_neg hv, usageOf]
        constructor
        · intro h
          exact absurd h (list_ne_append_singleton _ _)
        · rintro (⟨h, _⟩ | ⟨_, h⟩)
          · exact absurd h (by simp)
          · exact absurd h hv
      · exact absurd h (by simp)

theorem analyzeLine_moveExtrude (s : AState) (raw : String) (v : Rat)
    (hc : classify (stripChars raw.data) = LineClass.moveExtrude v) :
    analyzeLine s raw =
      (fun s1 => { s1 with lineNum := s1.lineNum + 1 })
        (moveStep (layerStep s (stripChars raw.data)) v) := by
  simp only [analyzeLine, classStep, hc]

/-- C1: a line classified as Move-With-Extrusion is recorded as an actual
extrusion event (the current tool's usage list is extended by the line
index) if and only if in ABSOLUTE mode the E value exceeds the tracked
extrusion position by more than the tolerance `1e-6`, and in RELATIVE mode
the E value itself exceeds that tolerance; in ABSOLUTE mode the extrusion
position is set to the new E value unconditionally, and the sequence
`E5.0, E5.0, E3.0` from position `0.0` records only the first line as
extrusion and leaves the position at `3.0`. -/
theorem c1_extrusion_event_iff (s : AState) (raw : String) (v : Rat)
    (hc : classify (stripChars raw.data) = LineClass.moveExtrude v) :
    ((usageOf (analyzeLine s raw) s.currentTool = usageOf s s.currentTool ++ [s.lineNum]
      ↔ ((s.eMode = EMode.ABS ∧ s.ePos + 1 / 1000000 < v) ∨
         (s.eMode = EMode.REL ∧ 1 / 1000000 < v)))
     ∧ (s.eMode = EMode.ABS → (analyzeLine s raw).ePos = v))
    ∧ usageOf (analyze ["G1 E5.0", "G1 E5.0", "G1 E3.0"]) 0 = [0]
    ∧ (analyze ["G1 E5.0", "G1 E5.0", "G1 E3.0"]).ePos = 3 := by
  refine ⟨?_, by with_unfolding_all decide, by with_unfolding_all decide⟩
  rw [analyzeLine_moveExtrude s raw v hc]
  by_cases hl : layerMarker (stripChars raw.data) = true
  · rw [show layerStep s (stripChars raw.data) = { s with inStart := false } from by
      unfold layerStep; rw [if_pos hl]]
    have h := moveStep_usage_iff { s with inStart := false } v
    exact ⟨h.1, h.2⟩
  · rw [show layerStep s (stripChars raw.data) = s from by
      unfold layerStep; rw [if_neg hl]]
    have h := moveStep_usage_iff s v
    exact ⟨h.1, h.2⟩

/-- Witness for C1 at the concrete line `G1 E7.5` from the initial state. -/
theorem c1_extrusion_event_iff_witness :
    classify (stripChars ("G1 E7.5").data) = LineClass.moveExtrude (15 / 2) ∧
    (usageOf (analyzeLine initState ("G1 E7.5")) initState.currentTool
        = usageOf initState initState.currentTool ++ [initState.lineNum]
      ↔ ((initState.eMode = EMode.ABS ∧ initState.ePos + 1 / 1000000 < 15 / 2) ∨
         (initState.eMode = EMode.REL ∧ (1 : Rat) / 1000000 < 15 / 2))) := by
  have hc : classify (stripChars ("G1 E7.5").data) = LineClass.moveExtrude (15 / 2) := by
    with_unfolding_all decide
  exact ⟨hc, (c1_extrusion_event_iff initState ("G1 E7.5") (15 / 2) hc).1.1⟩

/-! ## C2: the backward standby search selects the last occurrence -/

/-- Does line `k` of the sequence contain `marker` in its stripped text? -/
def markerHitB (marker : List Char) (lines : List String) (k : Nat) : Bool :=
  match lines[k]? with
  | some l => containsSub (stripChars l.data) marker
  | none => false

/-- Does line `k` contain the standby marker of tool `n`? -/
def markerInB (lines : List String) (n k : Nat) : Bool :=
  markerHitB (standbyMarker n) lines k

theorem markerHitB_nil (marker : List Char) (k : Nat) :
    markerHitB marker [] k = false := by
  simp [markerHitB]

theorem markerHitB_cons_zero (marker : List Char) (l : String) (ls : List String) :
    markerHitB marker (l :: ls) 0 = containsSub (stripChars l.data) marker := by
  simp [markerHitB]

theorem markerHitB_cons_succ (marker : List Char) (l : String) (ls : List String) (k : Nat) :
    markerHitB marker (l :: ls) (k + 1) = markerHitB marker ls k := by
  simp [markerHitB]

theorem lastMarkerIdx_eq_none (marker : List Char) (lines : List String)
    (h : ∀ k, markerHitB marker lines k = false) :
    lastMarkerIdx marker lines = none := by
  induction lines with
  | nil => rfl
  | cons l ls ih =>
    have h0 : containsSub (stripChars l.data) marker = false := by
      rw [← markerHitB_cons_zero marker l ls]
      exact h 0
    have hnone : lastMarkerIdx marker ls = none :=
      ih (fun k => by rw [← markerHitB_cons_succ marker l ls k]; exact h (k + 1))
    simp [lastMarkerIdx, hnone, h0]

theorem lastMarkerIdx_eq_some (marker : List Char) (lines : List String) (k : Nat)
    (hk : markerHitB marker lines k = true)
    (hmax : ∀ j, k < j → markerHitB marker lines j = false) :
    lastMarkerIdx marker lines = some k := by
  induction lines generalizing k with
  | nil => rw [markerHitB_nil] at hk; exact absurd hk (by simp)
  | cons l ls ih =>
    cases k with
    | zero =>
      have hnone : lastMarkerIdx marker ls = none :=
        lastMarkerIdx_eq_none marker ls (fun j => by
          rw [← markerHitB_cons_succ marker l ls j]
          exact hmax (j + 1) (Nat.succ_pos j))
      rw [markerHitB_cons_zero] at hk
      simp [lastMarkerIdx, hnone, hk]
    | succ k' =>
      have hk' : markerHitB marker ls k' = true := by
        rw [← markerHitB_cons_succ marker l ls k']; exact hk
      have hmax' : ∀ j, k' < j → markerHitB marker ls j = false := fun j hj => by
        rw [← markerHitB_cons_succ marker l ls j]
        exact hmax (j + 1) (Nat.succ_lt_succ hj)
      simp [lastMarkerIdx, ih k' hk' hmax']

/-- C2: if line `k` contains tool `n`'s standby marker and no later line
does, the planner's backward search selects exactly that occurrence and
sets the target insertion index to `k + 1` — never an earlier
occurrence. -/
theorem c2_last_standby_selected (lines : List String) (n k : Nat)
    (hk : markerInB lines n k = true)
    (hmax : ∀ j, k < j → markerInB lines n j = false) :
    findSafeInsertionPoint lines n = some (k + 1) := by
  have h := lastMarkerIdx_eq_some (standbyMarker n) lines k hk hmax
  simp [findSafeInsertionPoint, findLastStandbyCommand, h]

/-- Witness for C2: two standby lines for tool `2`; the later one (index 2)
anchors the insertion at index 3. -/
theorem c2_last_standby_selected_witness :
    markerInB ["G1 E1", "M104 S100 T2", "M104 S100 T2 ; later", "G1 E2"] 2 2 = true ∧
    findSafeInsertionPoint ["G1 E1", "M104 S100 T2", "M104 S100 T2 ; later", "G1 E2"] 2 = some 3 := by
  have hk : markerInB ["G1 E1", "M104 S100 T2", "M104 S100 T2 ; later", "G1 E2"] 2 2 = true := by
    decide
  refine ⟨hk, c2_last_standby_selected _ 2 2 hk ?_⟩
  intro j hj
  match j, hj with
  | 3, _ => decide
  | (m + 4), _ =>
    have hlen : ([( "G1 E1" : String), "M104 S100 T2", "M104 S100 T2 ; later", "G1 E2"]).length ≤ m + 4 := by
      simp
    simp [markerInB, markerHitB, List.getElem?_eq_none hlen]

/-! ## C4: a tool with no standby marker is skipped -/

theorem findSafeInsertionPoint_eq_none (lines : List String) (n : Nat)
    (h : ∀ k, markerInB lines n k = false) :
    findSafeInsertionPoint lines n = none := by
  have hnone := lastMarkerIdx_eq_none (standbyMarker n) lines h
  simp [findSafeInsertionPoint, findLastStandbyCommand, hnone]

theorem insertFold_not_mem (lines : List String) (n : Nat)
    (hfind : findSafeInsertionPoint lines n = none) (tbl : List (Nat × Nat)) :
    ∀ r : InsertResult,
      n ∉ r.inserted → (∀ k, (n, k) ∉ r.actions) →
      n ∉ (tbl.foldl (insertStep lines) r).inserted ∧
      (∀ k, (n, k) ∉ (tbl.foldl (insertStep lines) r).actions) := by
  induction tbl with
  | nil => exact fun r h1 h2 => ⟨h1, h2⟩
  | cons p t ih =>
    intro r h1 h2
    rw [List.foldl_cons]
    apply ih
    · by_cases hp : p.1 = n
      · simp [insertStep, hp, hfind, h1]
      · cases hfp : findSafeInsertionPoint lines p.1 with
        | none => simpa [insertStep, hfp] using h1
        | some k =>
          simp only [insertStep, hfp, List.mem_append, List.mem_singleton]
          rintro (hin | heq)
          · exact h1 hin
          · exact hp heq.symm
    · by_cases hp : p.1 = n
      · simpa [insertStep, hp, hfind] using h2
      · intro k
        cases hfp : findSafeInsertionPoint lines p.1 with
        | none => simpa [insertStep, hfp] using h2 k
        | some j =>
          simp only [insertStep, hfp, List.mem_append, List.mem_singleton]
          rintro (hin | heq)
          · exact h2 k hin
          · exact hp (congrArg Prod.fst heq).symm

/-- C4: for a tool `n` (with recorded usage) whose standby marker occurs
nowhere in the file, no safe insertion point is found, no insertion is
applied for it, it is not added to the shutdown set, and the report lists
it as active-until-end. -/
theorem c4_no_standby_skipped (lines : List String) (s : AState) (n : Nat)
    (hu : usageOf s n ≠ [])
    (h : ∀ k, markerInB lines n k = false) :
    findSafeInsertionPoint lines n = none ∧
    n ∉ (insertShutdownCommands lines s).inserted ∧
    (∀ k, (n, k) ∉ (insertShutdownCommands lines s).actions) ∧
    reportToolStatus (insertShutdownCommands lines s).inserted n = "○ Active until end" := by
  have hfind := findSafeInsertionPoint_eq_none lines n h
  have hfold :=
    insertFold_not_mem lines n hfind (plannerOrder s) ⟨lines, [], []⟩ (by simp) (by simp)
  have heq : insertShutdownCommands lines s
      = List.foldl (insertStep lines) ⟨lines, [], []⟩ (plannerOrder s) := rfl
  rw [heq]
  refine ⟨hfind, hfold.1, hfold.2, ?_⟩
  simp [reportToolStatus, hfold.1]

/-- Witness for C4: tool `5` extrudes but has no standby command. -/
theorem c4_no_standby_skipped_witness :
    usageOf (analyze ["T5", "G1 E1"]) 5 ≠ [] ∧
    5 ∉ (insertShutdownCommands ["T5", "G1 E1"] (analyze ["T5", "G1 E1"])).inserted ∧
    reportToolStatus (insertShutdownCommands ["T5", "G1 E1"] (analyze ["T5", "G1 E1"])).inserted 5
      = "○ Active until end" := by
  have hu : usageOf (analyze ["T5", "G1 E1"]) 5 ≠ [] := by with_unfolding_all decide
  have h : ∀ k, markerInB ["T5", "G1 E1"] 5 k = false := by
    intro k
    match k with
    | 0 => decide
    | 1 => decide
    | (m + 2) =>
      have hlen : ([("T5" : String), "G1 E1"]).length ≤ m + 2 := by simp
      simp [markerInB, markerHitB, List.getElem?_eq_none hlen]
  have hc := c4_no_standby_skipped ["T5", "G1 E1"] (analyze ["T5", "G1 E1"]) 5 hu h
  exact ⟨hu, hc.2.1, hc.2.2.2⟩

/-! ## C5: the tool-select match is anchored to the whole line -/

/-- C5: a line is classified Tool-Select only when it consists solely of
the tool token: optional leading whitespace, `T`, digits, optional
trailing whitespace, and optionally a trailing `;`-comment — and a line
that embeds the tool token inside another command (such as
`M104 S200 T1`) never changes the current tool or the change counts. -/
theorem c5_tool_select_whole_line :
    (∀ (cs : List Char) (n : Nat), parseT cs = some n →
      ∃ w1 ds w2 tail,
        cs = w1 ++ ('T' :: ds) ++ w2 ++ tail ∧
        (∀ c ∈ w1, isSpaceChar c = true) ∧
        ds ≠ [] ∧ (∀ c ∈ ds, c.isDigit = true) ∧
        (∀ c ∈ w2, isSpaceChar c = true) ∧
        (tail = [] ∨ ∃ r, tail = ';' :: r) ∧
        n = digitsToNat ds) ∧
    (∀ s : AState,
      (analyzeLine s ("M104 S200 T1")).currentTool = s.currentTool ∧
      (analyzeLine s ("M104 S200 T1")).changes = s.changes) := by
  constructor
  · intro cs n hp
    have hsplit : cs.takeWhile isSpaceChar ++ cs.dropWhile isSpaceChar = cs :=
      List.takeWhile_append_dropWhile isSpaceChar cs
    simp only [parseT] at hp
    split at hp
    case h_2 => exact absurd hp (by simp)
    case h_1 rest heq =>
      split at hp
      · exact absurd hp (by simp)
      · rename_i hds
        refine ⟨cs.takeWhile isSpaceChar, rest.takeWhile Char.isDigit,
          (rest.dropWhile Char.isDigit).takeWhile isSpaceChar,
          (rest.dropWhile Char.isDigit).dropWhile isSpaceChar, ?_, ?_, ?_, ?_, ?_, ?_, ?_⟩
        · conv_lhs => rw [← hsplit, heq]
          simp only [List.cons_append, List.append_assoc]
          rw [List.takeWhile_append_dropWhile, List.takeWhile_append_dropWhile]
        · exact fun c hc => List.mem_takeWhile_imp hc
        · intro hnil
          rw [hnil] at hds
          simp at hds
        · exact fun c hc => List.mem_takeWhile_imp hc
        · exact fun c hc => List.mem_takeWhile_imp hc
        · split at hp
          · exact Or.inl (by assumption)
          · rename_i r hsemi
            exact Or.inr ⟨r, hsemi⟩
          · exact absurd hp (by simp)
        · split at hp
          · exact (Option.some_inj.mp hp).symm
          · exact (Option.some_inj.mp hp).symm
          · exact absurd hp (by simp)
  · intro s
    have hcl : classify (stripChars ("M104 S200 T1").data) = LineClass.other := by decide
    have hlm : layerMarker (stripChars ("M104 S200 T1").data) = false := by decide
    constructor
    · simp [analyzeLine, classStep, layerStep, hcl, hlm]
    · simp [analyzeLine, classStep, layerStep, hcl, hlm]

/-- Witness for C5 at the concrete tool-select line `  T42 ; pick`. -/
theorem c5_tool_select_whole_line_witness :
    parseT ("  T42 ; pick").data = some 42 ∧
    (∃ w1 ds w2 tail,
      ("  T42 ; pick").data = w1 ++ 'T' :: ds ++ w2 ++ tail ∧
      (∀ c ∈ w1, isSpaceChar c = true) ∧
      ds ≠ [] ∧ (∀ c ∈ ds, c.isDigit = true) ∧
      (∀ c ∈ w2, isSpaceChar c = true) ∧
      (tail = [] ∨ ∃ r, tail = ';' :: r) ∧
      42 = digitsToNat ds) := by
  have hp : parseT ("  T42 ; pick").data = some 42 := by decide
  exact ⟨hp, c5_tool_select_whole_line.1 ("  T42 ; pick").data 42 hp⟩

/-! ## C6: the Move-With-Extrusion classification -/

/-- The spec's description of Move-With-Extrusion, for comparison with the
code's classifier: the line's command — its first whitespace-delimited
token — is the linear or rapid move command `G1`/`G0` (and no other
command), and the line carries a numeric extrusion-axis parameter that is
not preceded by a comment marker (an `E` parameter appearing after `;` on
the line is ignored). -/
def specMoveWithExtrusion (line : List Char) : Bool :=
  let s := stripChars line
  let cmd := s.takeWhile (fun c => !isSpaceChar c)
  (cmd == ("G0".data) || cmd == ("G1".data)) &&
  (findE (s.takeWhile (fun c => c != ';'))).isSome

theorem hasPrefixList_head_ne (c0 d0 : Char) (t ds : List Char)
    (h : (c0 == d0) = false) : hasPrefixList (c0 :: t) (d0 :: ds) = false := by
  simp [hasPrefixList, h]

theorem parseG92_head_ne (c0 c1 : Char) (t : List Char)
    (h0 : isSpaceChar c0 = false) (h1 : (c1 == '9') = false) :
    parseG92 (c0 :: c1 :: t) = none := by
  unfold parseG92
  rw [List.dropWhile_cons, if_neg (by simp [h0])]
  match t with
  | [] => rfl
  | [c2] => rfl
  | c2 :: c3 :: t' => simp [h1]

theorem parseT_head_ne (c0 : Char) (t : List Char)
    (h0 : isSpaceChar c0 = false) (hT : c0 ≠ 'T') :
    parseT (c0 :: t) = none := by
  unfold parseT
  rw [List.dropWhile_cons, if_neg (by simp [h0])]
  split
  · rename_i rest heq
    exact absurd (List.cons.injEq _ _ _ _ ▸ heq).1 hT
  · rfl

theorem moveHead_eq_true_split (ls : List Char) (hm : moveHead ls = true) :
    (∃ t, ls = 'G' :: '0' :: t) ∨ (∃ t, ls = 'G' :: '1' :: t) := by
  unfold moveHead at hm
  split at hm
  · rename_i t
    exact Or.inl ⟨t, rfl⟩
  · rename_i t
    exact Or.inr ⟨t, rfl⟩
  · exact absurd hm (by simp)

theorem classify_moveExtrude_iff (ls : List Char) (v : Rat) :
    classify ls = LineClass.moveExtrude v ↔
      (moveHead ls = true ∧ findE ls = some v) := by
  constructor
  · intro h
    unfold classify at h
    by_cases h82 : hasPrefixList ls ("M82".data) = true
    · rw [if_pos h82] at h; exact absurd h (by simp)
    rw [if_neg h82] at h
    by_cases h83 : hasPrefixList ls ("M83".data) = true
    · rw [if_pos h83] at h; exact absurd h (by simp)
    rw [if_neg h83] at h
    cases hg : parseG92 ls with
    | some w => rw [hg] at h; exact absurd h (by simp)
    | none =>
      rw [hg] at h
      cases ht : parseT ls with
      | some m => rw [ht] at h; exact absurd h (by simp)
      | none =>
        rw [ht] at h
        by_cases hmv : moveHead ls = true
        · rw [if_pos hmv] at h
          cases hf : findE ls with
          | some w =>
            rw [hf] at h
            injection h with hw
            exact ⟨hmv, congrArg Option.some hw⟩
          | none => rw [hf] at h; exact absurd h (by simp)
        · rw [if_neg hmv] at h; exact absurd h (by simp)
  · rintro ⟨hm, hf⟩
    rcases moveHead_eq_true_split ls hm with ⟨t, rfl⟩ | ⟨t, rfl⟩
    · unfold classify
      rw [show hasPrefixList ('G' :: '0' :: t) ("M82".data) = false from rfl]
      rw [show hasPrefixList ('G' :: '0' :: t) ("M83".data) = false from rfl]
      rw [parseG92_head_ne 'G' '0' t (by decide) (by decide)]
      rw [parseT_head_ne 'G' ('0' :: t) (by decide) (by decide)]
      rw [show moveHead ('G' :: '0' :: t) = true from rfl, hf]
      simp
    · unfold classify
      rw [show hasPrefixList ('G' :: '1' :: t) ("M82".data) = false from rfl]
      rw [show hasPrefixList ('G' :: '1' :: t) ("M83".data) = false from rfl]
      rw [parseG92_head_ne 'G' '1' t (by decide) (by decide)]
      rw [parseT_head_ne 'G' ('1' :: t) (by decide) (by decide)]
      rw [show moveHead ('G' :: '1' :: t) = true from rfl, hf]
      simp

/-- C6 counterexample: on the line `G10 ; E5` the classifier reports
Move-With-Extrusion with value 5 — although the command token is `G10`
(neither the linear nor the rapid move command) and the only `E` parameter
stands after the comment marker — so the claimed equivalence between the
classifier and the spec's description is false at this input. -/
theorem c6_counterexample :
    ¬ ((∃ v, classify (stripChars ("G10 ; E5").data) = LineClass.moveExtrude v) ↔
       specMoveWithExtrusion ("G10 ; E5").data = true) := by
  intro h
  have hl : classify (stripChars ("G10 ; E5").data) = LineClass.moveExtrude 5 := by
    with_unfolding_all decide
  have hr : specMoveWithExtrusion ("G10 ; E5").data = false := by
    with_unfolding_all decide
  have := h.mp ⟨5, hl⟩
  rw [this] at hr
  exact absurd hr (by simp)

/-- C6 amended: a line is classified Move-With-Extrusion exactly when its
stripped text begins with the two characters `G0` or `G1` (the source's
`line[:2] in ('G0', 'G1')` guard, which also accepts longer commands such
as `G10`) and the leftmost regex search finds an `E`-number at a word
boundary whose immediately preceding character is not `;` (an `E` after a
comment marker is still found unless `;` directly precedes it). -/
theorem c6_amended_move_classification (line : String) (v : Rat) :
    classify (stripChars line.data) = LineClass.moveExtrude v ↔
      (moveHead (stripChars line.data) = true ∧ findE (stripChars line.data) = some v) :=
  classify_moveExtrude_iff (stripChars line.data) v

/-! ## C7: re-running the pipeline duplicates shutdown blocks -/

theorem lastMarkerIdx_isSome (marker : List Char) (lines : List String)
    (h : ∃ k, markerHitB marker lines k = true) :
    ∃ j, lastMarkerIdx marker lines = some j := by
  induction lines with
  | nil =>
    obtain ⟨k, hk⟩ := h
    rw [markerHitB_nil] at hk
    exact absurd hk (by simp)
  | cons l ls ih =>
    obtain ⟨k, hk⟩ := h
    cases hrec : lastMarkerIdx marker ls with
    | some j => exact ⟨j + 1, by simp [lastMarkerIdx, hrec]⟩
    | none =>
      cases k with
      | zero =>
        rw [markerHitB_cons_zero] at hk
        exact ⟨0, by simp [lastMarkerIdx, hrec, hk]⟩
      | succ j =>
        rw [markerHitB_cons_succ] at hk
        obtain ⟨j', hj'⟩ := ih ⟨j, hk⟩
        rw [hj'] at hrec
        exact absurd hrec (by simp)

theorem findSafeInsertionPoint_isSome (lines : List String) (n : Nat)
    (h : ∃ k, markerInB lines n k = true) :
    ∃ j, findSafeInsertionPoint lines n = some j := by
  obtain ⟨j, hj⟩ := lastMarkerIdx_isSome (standbyMarker n) lines h
  exact ⟨j + 1, by simp [findSafeInsertionPoint, findLastStandbyCommand, hj]⟩

theorem insertFold_inserted_mono (lines : List String) (x : Nat) (tbl : List (Nat × Nat)) :
    ∀ r : InsertResult, x ∈ r.inserted →
      x ∈ (tbl.foldl (insertStep lines) r).inserted := by
  induction tbl with
  | nil => exact fun r h => h
  | cons p t ih =>
    intro r h
    rw [List.foldl_cons]
    apply ih
    cases hf : findSafeInsertionPoint lines p.1 with
    | none => simpa [insertStep, hf] using h
    | some k => simp [insertStep, hf, h]

theorem insertFold_actions_mono (lines : List String) (a : Nat × Nat) (tbl : List (Nat × Nat)) :
    ∀ r : InsertResult, a ∈ r.actions →
      a ∈ (tbl.foldl (insertStep lines) r).actions := by
  induction tbl with
  | nil => exact fun r h => h
  | cons p t ih =>
    intro r h
    rw [List.foldl_cons]
    apply ih
    cases hf : findSafeInsertionPoint lines p.1 with
    | none => simpa [insertStep, hf] using h
    | some k => simp [insertStep, hf, h]

theorem insertFold_mem (lines : List String) (n k : Nat)
    (hfind : findSafeInsertionPoint lines n = some k) (tbl : List (Nat × Nat)) :
    ∀ r : InsertResult, n ∈ tbl.map Prod.fst →
      n ∈ (tbl.foldl (insertStep lines) r).inserted ∧
      (n, k) ∈ (tbl.foldl (insertStep lines) r).actions := by
  induction tbl with
  | nil => intro r h; simp at h
  | cons p t ih =>
    intro r h
    rw [List.foldl_cons]
    rw [List.map_cons] at h
    rcases List.mem_cons.mp h with heq | hmem
    · have hf : findSafeInsertionPoint lines p.1 = some k := heq ▸ hfind
      constructor
      · exact insertFold_inserted_mono lines n t _ (by simp [insertStep, hf, heq])
      · exact insertFold_actions_mono lines (n, k) t _ (by simp [insertStep, hf, heq])
    · exact ih (insertStep lines r p) hmem

/-- C7 counterexample: on the three-line file `T0 / G1 E1 / M104 S100 T0`
one pipeline run inserts one heater-shutdown line for tool 0, but running
the pipeline again on the output inserts a second one: the claim that a
re-run inserts no second shutdown block is false at this input. -/
theorem c7_counterexample :
    (processOnce ["T0", "G1 E1", "M104 S100 T0"]).countP
        (fun l => l == shutdownHeaterLine 0) = 1 ∧
    (processOnce (processOnce ["T0", "G1 E1", "M104 S100 T0"])).countP
        (fun l => l == shutdownHeaterLine 0) = 2 := by
  constructor
  · with_unfolding_all decide
  · with_unfolding_all decide

/-- C7 amended: a second run re-anchors to the standby marker, which is
still present, and inserts another block: for every line sequence and
analysis state in which tool `n` is known with a non-empty usage list and
some line contains `n`'s standby marker — as is still the case for the
output of a first run — the insertion pass applies a further insertion for
`n` and adds `n` to the shutdown set again. -/
theorem c7_amended_rerun_inserts_again (lines : List String) (s : AState) (n : Nat)
    (hn : n ∈ s.totalTools) (hu : usageOf s n ≠ [])
    (hm : ∃ k, markerInB lines n k = true) :
    n ∈ (insertShutdownCommands lines s).inserted ∧
    ∃ j, (n, j) ∈ (insertShutdownCommands lines s).actions := by
  obtain ⟨j, hfind⟩ := findSafeInsertionPoint_isSome lines n hm
  have hlu : n ∈ (lastUsageList s).map Prod.fst := by
    apply List.mem_map.mpr
    refine ⟨(n, maxList (usageOf s n)), ?_, rfl⟩
    apply List.mem_filterMap.mpr
    refine ⟨n, hn, ?_⟩
    cases hus : usageOf s n with
    | nil => exact absurd hus hu
    | cons a t => simp [lastUsageList, hus]
  have hpo : n ∈ (plannerOrder s).map Prod.fst := by
    have hperm := List.perm_insertionSort
      (fun a b : Nat × Nat => b.2 ≤ a.2) (lastUsageList s)
    exact ((hperm.map Prod.fst).mem_iff).mpr hlu
  have heq : insertShutdownCommands lines s
      = List.foldl (insertStep lines) ⟨lines, [], []⟩ (plannerOrder s) := rfl
  rw [heq]
  have hh := insertFold_mem lines n j hfind (plannerOrder s) ⟨lines, [], []⟩ hpo
  exact ⟨hh.1, j, hh.2⟩

/-- Witness for C7's amended statement at a concrete three-line file. -/
theorem c7_amended_rerun_inserts_again_witness :
    3 ∈ (analyze ["T3", "G1 E2", "M104 S100 T3"]).totalTools ∧
    usageOf (analyze ["T3", "G1 E2", "M104 S100 T3"]) 3 ≠ [] ∧
    3 ∈ (insertShutdownCommands ["T3", "G1 E2", "M104 S100 T3"]
          (analyze ["T3", "G1 E2", "M104 S100 T3"])).inserted := by
  have hn : 3 ∈ (analyze ["T3", "G1 E2", "M104 S100 T3"]).totalTools := by
    with_unfolding_all decide
  have hu : usageOf (analyze ["T3", "G1 E2", "M104 S100 T3"]) 3 ≠ [] := by
    with_unfolding_all decide
  have hm : ∃ k, markerInB ["T3", "G1 E2", "M104 S100 T3"] 3 k = true :=
    ⟨2, by decide⟩
  exact ⟨hn, hu,
    (c7_amended_rerun_inserts_again ["T3", "G1 E2", "M104 S100 T3"]
      (analyze ["T3", "G1 E2", "M104 S100 T3"]) 3 hn hu hm).1⟩

/-! ## C3: the mutator can misplace a block (stale original indices) -/

/-- C3: evaluation at the failing input.  Tool 1's last use (line 3) is
later than tool 0's (line 1), so tool 1 is processed first, but tool 0's
standby (line 5) lies *after* tool 1's (line 4).  Tool 0's block is then
spliced at the stale original index 6 — into the middle of tool 1's
already-inserted block — and tool 0's standby command ends up as the very
last output line with no shutdown block after it, although tool 0 is
recorded as shut down. -/
theorem c3_block_not_after_standby :
    0 ∈ (insertShutdownCommands ["T0", "G1 E1", "T1", "G1 E2", "M104 S100 T1", "M104 S100 T0"]
          (analyze ["T0", "G1 E1", "T1", "G1 E2", "M104 S100 T1", "M104 S100 T0"])).inserted ∧
    (insertShutdownCommands ["T0", "G1 E1", "T1", "G1 E2", "M104 S100 T1", "M104 S100 T0"]
        (analyze ["T0", "G1 E1", "T1", "G1 E2", "M104 S100 T1", "M104 S100 T0"])).output.getLast?
      = some ("M104 S100 T0") ∧
    (insertShutdownCommands ["T0", "G1 E1", "T1", "G1 E2", "M104 S100 T1", "M104 S100 T0"]
        (analyze ["T0", "G1 E1", "T1", "G1 E2", "M104 S100 T1", "M104 S100 T0"])).output.length
      = 20 := by
  refine ⟨?_, ?_, ?_⟩
  · with_unfolding_all decide
  · with_unfolding_all decide
  · with_unfolding_all decide

/-! ## C9: the Usage Analyzer is deterministic -/

/-- Big-step execution of the `analyze_tool_usage` loop as a relation:
`RunAnalyzer s lines s'` holds when running the per-line transition from
state `s` over `lines` can end in state `s'`. -/
inductive RunAnalyzer : AState → List String → AState → Prop
  | nil (s : AState) : RunAnalyzer s [] s
  | cons (s : AState) (l : String) (ls : List String) (s' : AState) :
      RunAnalyzer (analyzeLine s l) ls s' → RunAnalyzer s (l :: ls) s'

theorem runAnalyzer_det (ls : List String) :
    ∀ s s1 s2, RunAnalyzer s ls s1 → RunAnalyzer s ls s2 → s1 = s2 := by
  induction ls with
  | nil =>
    intro s s1 s2 h1 h2
    cases h1
    cases h2
    rfl
  | cons l t ih =>
    intro s s1 s2 h1 h2
    cases h1 with
    | cons _ _ _ _ hr1 =>
      cases h2 with
      | cons _ _ _ _ hr2 => exact ih (analyzeLine s l) s1 s2 hr1 hr2

theorem runAnalyzer_complete (ls : List String) :
    ∀ s, RunAnalyzer s ls (List.foldl analyzeLine s ls) := by
  induction ls with
  | nil => exact fun s => .nil s
  | cons l t ih => exact fun s => .cons s l t _ (ih (analyzeLine s l))

/-- C9: the Usage Analyzer is deterministic and idempotent over re-runs:
any two executions of the analysis pass from the initial state over the
same original line sequence end in states with identical tool usage maps
and identical tool change counts. -/
theorem c9_analyzer_deterministic (lines : List String) (s1 s2 : AState)
    (h1 : RunAnalyzer initState lines s1) (h2 : RunAnalyzer initState lines s2) :
    s1.usage = s2.usage ∧ s1.changes = s2.changes := by
  have h := runAnalyzer_det lines initState s1 s2 h1 h2
  exact ⟨congrArg AState.usage h, congrArg AState.changes h⟩

/-- Witness for C9: two executions over the two-line file `T0 / G1 E5`. -/
theorem c9_analyzer_deterministic_witness :
    RunAnalyzer initState ["T0", "G1 E5"] (analyze ["T0", "G1 E5"]) ∧
    ((analyze ["T0", "G1 E5"]).usage = (analyze ["T0", "G1 E5"]).usage ∧
     (analyze ["T0", "G1 E5"]).changes = (analyze ["T0", "G1 E5"]).changes) :=
  ⟨runAnalyzer_complete ["T0", "G1 E5"] initState,
   c9_analyzer_deterministic ["T0", "G1 E5"] _ _
     (runAnalyzer_complete ["T0", "G1 E5"] initState)
     (runAnalyzer_complete ["T0", "G1 E5"] initState)⟩

/-! ## C10: the standby search is a raw substring test -/

theorem hasPrefixList_nil_needle (l : List Char) : hasPrefixList l [] = true := by
  cases l <;> rfl

theorem hasPrefixList_self_append (m q : List Char) :
    hasPrefixList (m ++ q) m = true := by
  induction m with
  | nil => rw [List.nil_append]; exact hasPrefixList_nil_needle q
  | cons c cs ih => simp [hasPrefixList, ih]

theorem containsSub_append_self (pre m post : List Char) :
    containsSub (pre ++ m ++ post) m = true := by
  induction pre with
  | nil =>
    rw [List.nil_append]
    cases m with
    | nil => cases post <;> simp [containsSub, hasPrefixList_nil_needle]
    | cons c cs =>
      have h : (c :: cs) ++ post = c :: (cs ++ post) := List.cons_append c cs post
      rw [h]
      unfold containsSub
      rw [← h, hasPrefixList_self_append]
      simp
  | cons c cs ih =>
    have h : (c :: cs) ++ m ++ post = c :: (cs ++ m ++ post) := by simp
    rw [h]
    unfold containsSub
    rw [ih]
    simp

theorem dropWhile_append_head_neg (p : Char → Bool) (xs : List Char) (y : Char)
    (ys : List Char) (hy : p y = false) :
    List.dropWhile p (xs ++ y :: ys) = List.dropWhile p xs ++ y :: ys := by
  induction xs with
  | nil => simp [List.dropWhile_cons, hy]
  | cons c cs ih =>
    by_cases hc : p c = true
    · simp [List.dropWhile_cons, hc, ih]
    · simp [List.dropWhile_cons, hc]

theorem stripChars_fixed_append (base q : List Char)
    (h1 : ∃ c t, base = c :: t ∧ isSpaceChar c = false)
    (h2 : ∃ d u, base.reverse = d :: u ∧ isSpaceChar d = false) :
    stripChars (base ++ q) = base ++ (q.reverse.dropWhile isSpaceChar).reverse := by
  obtain ⟨c, t, hbase, hc⟩ := h1
  obtain ⟨d, u, hrev, hd⟩ := h2
  unfold stripChars
  subst hbase
  rw [List.cons_append, List.dropWhile_cons, if_neg (by simp [hc]), ← List.cons_append]
  rw [List.reverse_append, hrev, dropWhile_append_head_neg isSpaceChar _ d u hd]
  rw [List.reverse_append, show (d :: u).reverse = c :: t from by
    rw [← hrev, List.reverse_reverse]]

theorem findSafeInsertionPoint_singleton (l : String) (n : Nat)
    (h : containsSub (stripChars l.data) (standbyMarker n) = true) :
    findSafeInsertionPoint [l] n = some 1 := by
  have h0 : lastMarkerIdx (standbyMarker n) [l] = some 0 := by
    simp [lastMarkerIdx, h]
  simp [findSafeInsertionPoint, findLastStandbyCommand, h0]

/-- C10: the backward standby search is a raw substring test on each
stripped line: for every suffix `q`, the single line
`"; note M104 S100 T12" ++ q` — a comment, not a standby command, whose
tool field reads `T12` — anchors the insertion both for tool 1 (whose id
is a decimal prefix of 12) and for tool 12, at index 1. -/
theorem c10_substring_anchor (q : String) :
    findSafeInsertionPoint [("; note M104 S100 T12" : String) ++ q] 1 = some 1 ∧
    findSafeInsertionPoint [("; note M104 S100 T12" : String) ++ q] 12 = some 1 := by
  have hs : stripChars ((("; note M104 S100 T12" : String) ++ q).data)
      = ("; note M104 S100 T12").data ++ (q.data.reverse.dropWhile isSpaceChar).reverse := by
    rw [String.data_append]
    exact stripChars_fixed_append _ q.data
      ⟨';', (" note M104 S100 T12").data, by decide, by decide⟩
      ⟨'2', ("1T 001S 401M eton ;").data, by decide, by decide⟩
  constructor
  · have hcont : containsSub
        (stripChars ((("; note M104 S100 T12" : String) ++ q).data)) (standbyMarker 1) = true := by
      rw [hs]
      rw [show standbyMarker 1 = ("M104 S100 T1").data from rfl]
      rw [show ("; note M104 S100 T12").data ++ (q.data.reverse.dropWhile isSpaceChar).reverse
          = ("; note ").data ++ ("M104 S100 T1").data
            ++ ('2' :: (q.data.reverse.dropWhile isSpaceChar).reverse) from rfl]
      exact containsSub_append_self _ _ _
    exact findSafeInsertionPoint_singleton _ 1 hcont
  · have hcont : containsSub
        (stripChars ((("; note M104 S100 T12" : String) ++ q).data)) (standbyMarker 12) = true := by
      rw [hs]
      rw [show standbyMarker 12 = ("M104 S100 T12").data from rfl]
      rw [show ("; note M104 S100 T12").data ++ (q.data.reverse.dropWhile isSpaceChar).reverse
          = ("; note ").data ++ ("M104 S100 T12").data
            ++ (q.data.reverse.dropWhile isSpaceChar).reverse from rfl]
      exact containsSub_append_self _ _ _
    exact findSafeInsertionPoint_singleton _ 12 hcont

/-! ## C8: the planner's processing order -/

/-- The spec's planner ordering relation: last-use index descending, ties
broken by tool id ascending (a total lexicographic order on
`(tool, last-use)` pairs). -/
def lexLe (a b : Nat × Nat) : Prop :=
  b.2 < a.2 ∨ (a.2 = b.2 ∧ a.1 ≤ b.1)

instance : DecidableRel lexLe := fun a b =>
  decidable_of_iff (b.2 < a.2 ∨ (a.2 = b.2 ∧ a.1 ≤ b.1)) Iff.rfl

/-- The planner order the spec describes: sort the `(tool, last-use)`
pairs by last-use descending with ties by tool id ascending. -/
def specPlannerOrder (s : AState) : List (Nat × Nat) :=
  List.insertionSort lexLe (lastUsageList s)

/-- The usage-map invariant maintained by the analysis pass: all recorded
indices are below the current line counter, usage lists of distinct tools
are disjoint, and the known-tools list holds no duplicates. -/
def UsageInvOn (u : List (Nat × List Nat)) (tt : List Nat) (ln : Nat) : Prop :=
  (∀ t, ∀ i ∈ lookupList u t, i < ln) ∧
  (∀ t1 t2, t1 ≠ t2 → ∀ i, i ∈ lookupList u t1 → i ∉ lookupList u t2) ∧
  tt.Nodup

/-- The invariant, read off an analyzer state. -/
def UsageInv (s : AState) : Prop := UsageInvOn s.usage s.totalTools s.lineNum

theorem usageInvOn_mono (u : List (Nat × List Nat)) (tt : List Nat) (ln : Nat)
    (h : UsageInvOn u tt ln) : UsageInvOn u tt (ln + 1) :=
  ⟨fun t i hi => Nat.lt_succ_of_lt (h.1 t i hi), h.2.1, h.2.2⟩

theorem addTool_nodup (l : List Nat) (t : Nat) (h : l.Nodup) : (addTool l t).Nodup := by
  unfold addTool
  split
  · exact h
  · rename_i ht
    exact List.nodup_append.mpr ⟨h, List.nodup_singleton t, by simpa using ht⟩

theorem usageInvOn_addTool (u : List (Nat × List Nat)) (tt : List Nat) (ln t : Nat)
    (h : UsageInvOn u tt ln) : UsageInvOn u (addTool tt t) ln :=
  ⟨h.1, h.2.1, addTool_nodup tt t h.2.2⟩

theorem usageInvOn_append (u : List (Nat × List Nat)) (tt : List Nat) (ln ct : Nat)
    (h : UsageInvOn u tt ln) :
    UsageInvOn (usageAppend u ct ln) (addTool tt ct) (ln + 1) := by
  obtain ⟨h1, h2, h3⟩ := h
  refine ⟨?_, ?_, addTool_nodup tt ct h3⟩
  · intro t i hi
    by_cases ht : t = ct
    · subst ht
      rw [lookupList_usageAppend_self] at hi
      rcases List.mem_append.mp hi with hi | hi
      · exact Nat.lt_succ_of_lt (h1 t i hi)
      · rw [List.mem_singleton.mp hi]
        exact Nat.lt_succ_self ln
    · rw [lookupList_usageAppend_ne u ct t ln ht] at hi
      exact Nat.lt_succ_of_lt (h1 t i hi)
  · intro t1 t2 hne i hi1
    by_cases ht1 : t1 = ct
    · subst ht1
      rw [lookupList_usageAppend_self] at hi1
      rw [lookupList_usageAppend_ne u t1 t2 ln (fun e => hne e.symm)]
      rcases List.mem_append.mp hi1 with hi | hi
      · exact h2 t1 t2 hne i hi
      · rw [List.mem_singleton.mp hi]
        intro hcontra
        exact absurd (h1 t2 ln hcontra) (lt_irrefl ln)
    · rw [lookupList_usageAppend_ne u ct t1 ln ht1] at hi1
      by_cases ht2 : t2 = ct
      · subst ht2
        rw [lookupList_usageAppend_self]
        intro hmem
        rcases List.mem_append.mp hmem with hm | hm
        · exact h2 t1 t2 hne i hi1 hm
        · rw [List.mem_singleton.mp hm] at hi1
          exact absurd (h1 t1 ln hi1) (lt_irrefl ln)
      · rw [lookupList_usageAppend_ne u ct t2 ln ht2]
        exact h2 t1 t2 hne i hi1

theorem toolSelectStep_usage (s : AState) (n : Nat) :
    (toolSelectStep s n).usage = s.usage := by
  unfold toolSelectStep
  split
  · split
    · rfl
    · split
      · split <;> rfl
      · rfl
  · rfl

theorem toolSelectStep_totalTools (s : AState) (n : Nat) :
    (toolSelectStep s n).totalTools = addTool s.totalTools n := by
  unfold toolSelectStep
  split
  · split
    · rfl
    · split
      · split <;> rfl
      · rfl
  · rfl

theorem toolSelectStep_lineNum (s : AState) (n : Nat) :
    (toolSelectStep s n).lineNum = s.lineNum := by
  unfold toolSelectStep
  split
  · split
    · rfl
    · split
      · split <;> rfl
      · rfl
  · rfl

theorem moveStep_fields (s : AState) (v : Rat) :
    ((moveStep s v).usage = s.usage ∧ (moveStep s v).totalTools = s.totalTools ∧
      (moveStep s v).lineNum = s.lineNum) ∨
    ((moveStep s v).usage = usageAppend s.usage s.currentTool s.lineNum ∧
      (moveStep s v).totalTools = addTool s.totalTools s.currentTool ∧
      (moveStep s v).lineNum = s.lineNum) := by
  unfold moveStep recordExtrusion
  split
  · split
    · exact Or.inr ⟨rfl, rfl, rfl⟩
    · exact Or.inl ⟨rfl, rfl, rfl⟩
  · split
    · exact Or.inr ⟨rfl, rfl, rfl⟩
    · exact Or.inl ⟨rfl, rfl, rfl⟩

theorem usageInv_classStep (s : AState) (line : List Char)
    (h : UsageInvOn s.usage s.totalTools s.lineNum) :
    UsageInvOn (classStep s line).usage (classStep s line).totalTools
      ((classStep s line).lineNum + 1) := by
  unfold classStep
  cases classify line with
  | modeSet m => exact usageInvOn_mono _ _ _ h
  | originReset v => exact usageInvOn_mono _ _ _ h
  | toolSelect n =>
    show UsageInvOn (toolSelectStep s n).usage (toolSelectStep s n).totalTools
      ((toolSelectStep s n).lineNum + 1)
    rw [toolSelectStep_usage, toolSelectStep_totalTools, toolSelectStep_lineNum]
    exact usageInvOn_addTool _ _ _ n (usageInvOn_mono _ _ _ h)
  | moveExtrude v =>
    show UsageInvOn (moveStep s v).usage (moveStep s v).totalTools ((moveStep s v).lineNum + 1)
    rcases moveStep_fields s v with ⟨hu, ht, hl⟩ | ⟨hu, ht, hl⟩
    · rw [hu, ht, hl]
      exact usageInvOn_mono _ _ _ h
    · rw [hu, ht, hl]
      exact usageInvOn_append _ _ _ s.currentTool h
  | other => exact usageInvOn_mono _ _ _ h

theorem usageInv_analyzeLine (s : AState) (raw : String) (h : UsageInv s) :
    UsageInv (analyzeLine s raw) := by
  unfold UsageInv at h ⊢
  show UsageInvOn (classStep (layerStep s (stripChars raw.data)) (stripChars raw.data)).usage
    (classStep (layerStep s (stripChars raw.data)) (stripChars raw.data)).totalTools
    ((classStep (layerStep s (stripChars raw.data)) (stripChars raw.data)).lineNum + 1)
  apply usageInv_classStep
  unfold layerStep
  split
  · exact h
  · exact h

theorem usageInv_init : UsageInv initState := by
  refine ⟨fun t i hi => ?_, fun t1 t2 hne i hi => ?_, List.nodup_nil⟩
  · simp [initState, lookupList] at hi
  · simp [initState, lookupList] at hi

theorem usageInv_analyze (lines : List String) : UsageInv (analyze lines) := by
  have key : ∀ s, UsageInv s → UsageInv (List.foldl analyzeLine s lines) := by
    induction lines with
    | nil => exact fun s h => h
    | cons l t ih =>
      intro s h
      rw [List.foldl_cons]
      exact ih (analyzeLine s l) (usageInv_analyzeLine s l h)
  exact key initState usageInv_init

theorem foldl_max_mem (t : List Nat) : ∀ a, t.foldl Nat.max a ∈ a :: t := by
  induction t with
  | nil => intro a; simp
  | cons b u ih =>
    intro a
    rw [List.foldl_cons]
    rcases List.mem_cons.mp (ih (Nat.max a b)) with h | h
    · have hm : Nat.max a b = a ∨ Nat.max a b = b := by
        rcases Nat.le_total b a with hle | hle
        · exact Or.inl (Nat.max_eq_left hle)
        · exact Or.inr (Nat.max_eq_right hle)
      rcases hm with hm | hm <;> rw [h, hm]
      · exact List.mem_cons_self a _
      · exact List.mem_cons_of_mem a (List.mem_cons_self b u)
    · exact List.mem_cons_of_mem a (List.mem_cons_of_mem b h)

theorem maxList_mem_cons (a : Nat) (t : List Nat) : maxList (a :: t) ∈ (a :: t) :=
  foldl_max_mem t a

theorem lastUsageList_snd_distinct (s : AState) (h : UsageInv s) :
    (lastUsageList s).Pairwise (fun a b => a.2 ≠ b.2) := by
  obtain ⟨h1, h2, h3⟩ := h
  unfold lastUsageList
  apply List.pairwise_filterMap.mpr
  apply h3.imp ?_
  intro t1 t2 hne
  intro b hb b' hb'
  cases hu1 : usageOf s t1 with
  | nil => rw [hu1] at hb; exact absurd hb (by simp)
  | cons a1 u1 =>
    cases hu2 : usageOf s t2 with
    | nil => rw [hu2] at hb'; exact absurd hb' (by simp)
    | cons a2 u2 =>
      rw [hu1] at hb
      rw [hu2] at hb'
      have hb2 : (t1, maxList (a1 :: u1)) = b := by simpa using hb
      have hb'2 : (t2, maxList (a2 :: u2)) = b' := by simpa using hb'
      rw [← hb2, ← hb'2]
      intro heq
      have hm1 : maxList (a1 :: u1) ∈ usageOf s t1 := hu1 ▸ maxList_mem_cons a1 u1
      have hm2 : maxList (a2 :: u2) ∈ usageOf s t2 := hu2 ▸ maxList_mem_cons a2 u2
      have heq' : maxList (a1 :: u1) = maxList (a2 :: u2) := by simpa using heq
      exact h2 t1 t2 hne _ hm1 (heq' ▸ hm2)

theorem orderedInsert_desc_eq_lex (x : Nat × Nat) (l : List (Nat × Nat))
    (h : ∀ y ∈ l, x.2 ≠ y.2) :
    List.orderedInsert (fun a b : Nat × Nat => b.2 ≤ a.2) x l
      = List.orderedInsert lexLe x l := by
  induction l with
  | nil => rfl
  | cons y t ih =>
    have hxy : x.2 ≠ y.2 := h y (List.mem_cons_self y t)
    by_cases hc : y.2 ≤ x.2
    · have hlt : lexLe x y := Or.inl (lt_of_le_of_ne hc (fun e => hxy e.symm))
      rw [List.orderedInsert, List.orderedInsert, if_pos hc, if_pos hlt]
    · have hlt : ¬ lexLe x y := by
        rintro (hl | ⟨he, _⟩)
        · exact hc hl.le
        · exact hxy he
      rw [List.orderedInsert, List.orderedInsert, if_neg hc, if_neg hlt,
        ih (fun z hz => h z (List.mem_cons_of_mem y hz))]

theorem insertionSort_desc_eq_lex (l : List (Nat × Nat))
    (h : l.Pairwise (fun a b => a.2 ≠ b.2)) :
    List.insertionSort (fun a b : Nat × Nat => b.2 ≤ a.2) l
      = List.insertionSort lexLe l := by
  induction l with
  | nil => rfl
  | cons x t ih =>
    rw [List.insertionSort, List.insertionSort, ih (List.Pairwise.of_cons h)]
    apply orderedInsert_desc_eq_lex
    intro y hy
    have hyt : y ∈ t := (List.perm_insertionSort lexLe t).subset hy
    exact (List.pairwise_cons.mp h).1 y hyt

/-- C8: for every input, the order in which the planner processes tools —
Python's stable sort of the `(tool, last-use)` pairs by last-use
descending — coincides with the spec's canonical order "last-use
descending, ties by tool id ascending".  Ties cannot actually occur: the
analyzer gives distinct tools disjoint usage-index lists, so their
last-use indices differ, and the processing order is a deterministic
function of the usage map alone. -/
theorem c8_planner_order_canonical (lines : List String) :
    plannerOrder (analyze lines) = specPlannerOrder (analyze lines) := by
  have hdist := lastUsageList_snd_distinct (analyze lines) (usageInv_analyze lines)
  unfold plannerOrder specPlannerOrder
  exact insertionSort_desc_eq_lex _ hdist

end OrcaToolShutdown
